import Mathlib

/-!
Verification development for the `cpar` crop tool (`src/main.rs`).

The embedding below translates the algorithmic core of `main`:
  * luminance edge scanning along both axes (lines 78-99),
  * percentile-based boundary selection with the extra-margin
    subtraction (lines 63-68 and 106-112),
  * the aspect-ratio-preserving dimension computation and the final
    downscale (lines 114-136),
  * the crop / optional blur / resize call sequence (lines 125-136).

Machine-integer arithmetic (`u32`) is modelled on `ℕ` with explicit
wrap-around (`% 2^32`) where the Rust subtraction can overflow.

The `f32` computation that turns the percentile into a selection index
(lines 65-66 and 109-110) is modelled faithfully: `rne` below is IEEE-754
round-to-nearest, ties-to-even, at 24 bits of precision with unbounded
exponent, over `ℚ`.  All quantities reaching that code path are far away
from the overflow/subnormal thresholds of `f32`, so the unbounded-exponent
model agrees with `f32` there.  The remaining float arithmetic (the
aspect-ratio computation, lines 115-123 and 133-134) is modelled twice:
`newDims`/`aspectResize` treat it as exact rational arithmetic and are
used only for claims settled at concrete inputs on which every `f32`
operation is exact (each such input is bit-for-bit representable), while
`newDimsF32`/`aspectResizeF32` insert `rne` at every operation and model
the saturating `as u32` cast, and carry the universally quantified
bounds of claim C3.
-/

namespace Cpar

/-- Number of binary digits of `n` (`0` for `0`), via explicit fuel so that
the definition is structural and kernel-reducible. -/
def nbitsAux : ℕ → ℕ → ℕ
  | 0, _ => 0
  | fuel+1, n => if n = 0 then 0 else nbitsAux fuel (n / 2) + 1

/-- Number of binary digits of `n`. -/
def nbits (n : ℕ) : ℕ := nbitsAux n n

lemma nbitsAux_zero : ∀ fuel, nbitsAux fuel 0 = 0
  | 0 => rfl
  | _+1 => by simp [nbitsAux]

lemma nbitsAux_spec : ∀ fuel n : ℕ, n ≤ fuel → 1 ≤ n →
    2 ^ (nbitsAux fuel n - 1) ≤ n ∧ n < 2 ^ (nbitsAux fuel n) ∧ 1 ≤ nbitsAux fuel n := by
  intro fuel
  induction fuel with
  | zero => intro n h1 h2; omega
  | succ fuel ih =>
    intro n hle hpos
    have hne : n ≠ 0 := by omega
    rw [nbitsAux, if_neg hne]
    rcases Nat.lt_or_ge n 2 with h2 | h2
    · have hn1 : n = 1 := by omega
      subst hn1
      simp [nbitsAux_zero]
    · have hhalf_pos : 1 ≤ n / 2 := Nat.one_le_div_iff (by norm_num) |>.mpr h2
      have hhalf_le : n / 2 ≤ fuel := by
        have := Nat.div_lt_self (by omega : 0 < n) (by norm_num : 1 < 2)
        omega
      obtain ⟨ihl, ihu, ihpos⟩ := ih (n / 2) hhalf_le hhalf_pos
      set k := nbitsAux fuel (n / 2) with hk
      refine ⟨?_, ?_, by omega⟩
      · have h1 : 2 ^ (k - 1) * 2 ≤ n / 2 * 2 := Nat.mul_le_mul_right 2 ihl
        have h2' : n / 2 * 2 ≤ n := Nat.div_mul_le_self n 2
        have h3 : 2 ^ (k - 1) * 2 = 2 ^ k := by
          rw [← pow_succ]
          congr 1
          omega
        calc 2 ^ (k + 1 - 1) = 2 ^ k := by norm_num
          _ = 2 ^ (k - 1) * 2 := h3.symm
          _ ≤ n / 2 * 2 := h1
          _ ≤ n := h2'
      · have h4 : 2 * 2 ^ k = 2 ^ (k + 1) := by rw [pow_succ]; ring
        calc n < 2 * (n / 2) + 2 := by omega
          _ ≤ 2 * 2 ^ k := by omega
          _ = 2 ^ (k + 1) := h4

lemma nbits_spec (n : ℕ) (h : 1 ≤ n) :
    2 ^ (nbits n - 1) ≤ n ∧ n < 2 ^ (nbits n) ∧ 1 ≤ nbits n :=
  nbitsAux_spec n n le_rfl h

/-- Binary exponent of a positive rational: the unique `L` with
`2^L ≤ q < 2^(L+1)`. -/
def qlog2 (q : ℚ) : ℤ :=
  let d : ℤ := (nbits q.num.toNat : ℤ) - (nbits q.den : ℤ)
  if q < 2 ^ d then d - 1 else d

lemma qlog2_spec (q : ℚ) (hq : 0 < q) :
    2 ^ qlog2 q ≤ q ∧ q < 2 ^ (qlog2 q + 1) := by
  have hnum : 0 < q.num := Rat.num_pos.mpr hq
  have ha1 : 1 ≤ q.num.toNat := by omega
  have hb1 : 1 ≤ q.den := q.pos
  obtain ⟨hal, hau, hA1⟩ := nbits_spec _ ha1
  obtain ⟨hbl, hbu, hB1⟩ := nbits_spec _ hb1
  set a : ℕ := q.num.toNat with ha
  set b : ℕ := q.den with hb
  set A : ℕ := nbits a with hA
  set B : ℕ := nbits b with hB
  have h2ne : (2:ℚ) ≠ 0 := by norm_num
  have hq_eq : q = (a : ℚ) / (b : ℚ) := by
    rw [← Rat.num_div_den q]
    congr 1
    norm_cast
    omega
  have hbpos : (0 : ℚ) < (b : ℚ) := by exact_mod_cast hb1
  -- rational versions of the nat bit-length bounds
  have hal' : (2 : ℚ) ^ (A - 1 : ℕ) ≤ (a : ℚ) := by exact_mod_cast hal
  have hau' : (a : ℚ) < (2 : ℚ) ^ (A : ℕ) := by exact_mod_cast hau
  have hbl' : (2 : ℚ) ^ (B - 1 : ℕ) ≤ (b : ℚ) := by exact_mod_cast hbl
  have hbu' : (b : ℚ) < (2 : ℚ) ^ (B : ℕ) := by exact_mod_cast hbu
  -- strict lower bound  2^(A-B-1) < q
  have hlow : (2 : ℚ) ^ ((A:ℤ) - (B:ℤ) - 1) < q := by
    rw [hq_eq, lt_div_iff₀ hbpos]
    have step1 : (2:ℚ) ^ ((A:ℤ) - (B:ℤ) - 1) * (b:ℚ)
        < (2:ℚ) ^ ((A:ℤ) - (B:ℤ) - 1) * 2 ^ (B:ℤ) := by
      refine mul_lt_mul_of_pos_left ?_ (by positivity)
      calc (b:ℚ) < 2 ^ (B:ℕ) := hbu'
        _ = 2 ^ (B:ℤ) := (zpow_natCast 2 B).symm
    have step2 : (2:ℚ) ^ ((A:ℤ) - (B:ℤ) - 1) * 2 ^ (B:ℤ) = 2 ^ ((A:ℤ) - 1) := by
      rw [← zpow_add₀ h2ne]
      congr 1
      ring
    have step3 : (2:ℚ) ^ ((A:ℤ) - 1) ≤ (a:ℚ) := by
      calc (2:ℚ) ^ ((A:ℤ) - 1) = 2 ^ ((A - 1 : ℕ) : ℤ) := by congr 1; omega
        _ = 2 ^ (A - 1 : ℕ) := zpow_natCast 2 (A - 1)
        _ ≤ (a:ℚ) := hal'
    linarith
  -- strict upper bound  q < 2^(A-B+1)
  have hhigh : q < (2 : ℚ) ^ ((A:ℤ) - (B:ℤ) + 1) := by
    rw [hq_eq, div_lt_iff₀ hbpos]
    have step3 : (a:ℚ) < 2 ^ ((A:ℤ)) := by
      calc (a:ℚ) < 2 ^ (A:ℕ) := hau'
        _ = 2 ^ ((A:ℤ)) := (zpow_natCast 2 A).symm
    have step2 : (2:ℚ) ^ ((A:ℤ)) = 2 ^ ((A:ℤ) - (B:ℤ) + 1) * 2 ^ ((B:ℤ) - 1) := by
      rw [← zpow_add₀ h2ne]
      congr 1
      ring
    have step4 : (2:ℚ) ^ ((B:ℤ) - 1) ≤ (b:ℚ) := by
      calc (2:ℚ) ^ ((B:ℤ) - 1) = 2 ^ ((B - 1 : ℕ) : ℤ) := by congr 1; omega
        _ = 2 ^ (B - 1 : ℕ) := zpow_natCast 2 (B - 1)
        _ ≤ (b:ℚ) := hbl'
    calc (a:ℚ) < 2 ^ ((A:ℤ)) := step3
      _ = 2 ^ ((A:ℤ) - (B:ℤ) + 1) * 2 ^ ((B:ℤ) - 1) := step2
      _ ≤ 2 ^ ((A:ℤ) - (B:ℤ) + 1) * (b:ℚ) :=
          mul_le_mul_of_nonneg_left step4 (by positivity)
  have hd : (nbits q.num.toNat : ℤ) - (nbits q.den : ℤ) = (A:ℤ) - (B:ℤ) := rfl
  simp only [qlog2, hd]
  split_ifs with hcase
  · refine ⟨le_of_lt hlow, ?_⟩
    calc q < 2 ^ ((A:ℤ) - (B:ℤ)) := hcase
      _ = 2 ^ ((A:ℤ) - (B:ℤ) - 1 + 1) := by congr 1; ring
  · refine ⟨not_lt.mp hcase, hhigh⟩

lemma qlog2_eq (q : ℚ) (L : ℤ) (hq : 0 < q)
    (h1 : (2:ℚ) ^ L ≤ q) (h2 : q < 2 ^ (L + 1)) : qlog2 q = L := by
  obtain ⟨g1, g2⟩ := qlog2_spec q hq
  by_contra hne
  rcases lt_or_gt_of_ne hne with h | h
  · have : (2:ℚ) ^ (qlog2 q + 1) ≤ 2 ^ L := zpow_le_zpow_right₀ (by norm_num) (by omega)
    linarith
  · have : (2:ℚ) ^ (L + 1) ≤ 2 ^ qlog2 q := zpow_le_zpow_right₀ (by norm_num) (by omega)
    linarith

lemma qlog2_mono (x y : ℚ) (hx : 0 < x) (hxy : x ≤ y) : qlog2 x ≤ qlog2 y := by
  obtain ⟨hx1, hx2⟩ := qlog2_spec x hx
  obtain ⟨hy1, hy2⟩ := qlog2_spec y (lt_of_lt_of_le hx hxy)
  by_contra h
  have : (2:ℚ) ^ (qlog2 y + 1) ≤ 2 ^ qlog2 x := zpow_le_zpow_right₀ (by norm_num) (by omega)
  linarith

/-- Round-to-nearest, ties-to-even, of an exact significand value. -/
def rHalf (m : ℚ) : ℤ :=
  if m - ⌊m⌋ < 1/2 then ⌊m⌋
  else if 1/2 < m - ⌊m⌋ then ⌊m⌋ + 1
  else if 2 ∣ ⌊m⌋ then ⌊m⌋ else ⌊m⌋ + 1

lemma floor_le_rHalf (m : ℚ) : ⌊m⌋ ≤ rHalf m := by
  rw [rHalf]; split_ifs <;> omega

lemma rHalf_le_floor_add_one (m : ℚ) : rHalf m ≤ ⌊m⌋ + 1 := by
  rw [rHalf]; split_ifs <;> omega

lemma rHalf_intCast (k : ℤ) : rHalf (k : ℚ) = k := by
  rw [rHalf, Int.floor_intCast]
  rw [if_pos (by norm_num)]

lemma rHalf_le_ceil (m : ℚ) : rHalf m ≤ ⌈m⌉ := by
  rw [rHalf]
  split_ifs with h1 h2 h3
  · exact Int.floor_le_ceil m
  · -- fractional part is > 1/2, in particular m is not an integer
    have hlt : (⌊m⌋ : ℚ) < m := by linarith [Int.floor_le m]
    have : ⌊m⌋ < ⌈m⌉ := by
      have := Int.le_ceil m
      exact_mod_cast lt_of_lt_of_le hlt this
    omega
  · exact Int.floor_le_ceil m
  · have hfrac : m - ⌊m⌋ = 1/2 := le_antisymm (not_lt.mp h2) (not_lt.mp h1)
    have hlt : (⌊m⌋ : ℚ) < m := by linarith
    have : ⌊m⌋ < ⌈m⌉ := by
      have := Int.le_ceil m
      exact_mod_cast lt_of_lt_of_le hlt this
    omega

lemma rHalf_mono (m m' : ℚ) (h : m ≤ m') : rHalf m ≤ rHalf m' := by
  rcases lt_or_eq_of_le (Int.floor_mono h) with hfl | hfl
  · calc rHalf m ≤ ⌊m⌋ + 1 := rHalf_le_floor_add_one m
      _ ≤ ⌊m'⌋ := by omega
      _ ≤ rHalf m' := floor_le_rHalf m'
  · have hfrac : m - ⌊m⌋ ≤ m' - ⌊m'⌋ := by
      rw [← hfl]; linarith
    rw [rHalf, rHalf, ← hfl]
    split_ifs <;> first | omega | (exfalso; linarith)

/-- `f32` rounding: round-to-nearest, ties-to-even, 24-bit significand,
unbounded exponent, restricted to nonnegative inputs (all inputs reaching
the modelled code path are nonnegative). -/
def rne (q : ℚ) : ℚ :=
  if q ≤ 0 then 0
  else (rHalf (q / 2 ^ (qlog2 q - 23)) : ℚ) * 2 ^ (qlog2 q - 23)

lemma mantissa_bounds (q : ℚ) (hq : 0 < q) :
    (2:ℚ) ^ (23:ℤ) ≤ q / 2 ^ (qlog2 q - 23) ∧ q / 2 ^ (qlog2 q - 23) < 2 ^ (24:ℤ) := by
  obtain ⟨h1, h2⟩ := qlog2_spec q hq
  constructor
  · rw [le_div_iff₀ (by positivity)]
    calc (2:ℚ) ^ (23:ℤ) * 2 ^ (qlog2 q - 23) = 2 ^ qlog2 q := by
          rw [← zpow_add₀ (by norm_num : (2:ℚ) ≠ 0)]; ring_nf
      _ ≤ q := h1
  · rw [div_lt_iff₀ (by positivity)]
    calc q < 2 ^ (qlog2 q + 1) := h2
      _ = (2:ℚ) ^ (24:ℤ) * 2 ^ (qlog2 q - 23) := by
          rw [← zpow_add₀ (by norm_num : (2:ℚ) ≠ 0)]; ring_nf

lemma rne_nonneg (q : ℚ) : 0 ≤ rne q := by
  rw [rne]
  split_ifs with h
  · exact le_refl 0
  · push_neg at h
    have hm : (0:ℚ) ≤ q / 2 ^ (qlog2 q - 23) := by positivity
    have : (0:ℤ) ≤ ⌊q / 2 ^ (qlog2 q - 23)⌋ := Int.floor_nonneg.mpr hm
    have : (0:ℤ) ≤ rHalf (q / 2 ^ (qlog2 q - 23)) := le_trans this (floor_le_rHalf _)
    have : (0:ℚ) ≤ (rHalf (q / 2 ^ (qlog2 q - 23)) : ℚ) := by exact_mod_cast this
    positivity

lemma rne_of_exact (q : ℚ) (hq : 0 < q) (k : ℤ)
    (hk : (k : ℚ) = q / 2 ^ (qlog2 q - 23)) : rne q = q := by
  rw [rne, if_neg (not_le.mpr hq), ← hk, rHalf_intCast, hk,
    div_mul_cancel₀ _ (by positivity : (2:ℚ) ^ (qlog2 q - 23) ≠ 0)]

lemma rne_zero : rne 0 = 0 := by rw [rne, if_pos le_rfl]

lemma rne_natCast (n : ℕ) (hn : n ≤ 2 ^ 24) : rne (n : ℚ) = n := by
  rcases Nat.eq_zero_or_pos n with h0 | hpos
  · subst h0; simpa using rne_zero
  have hq : (0:ℚ) < n := by exact_mod_cast hpos
  obtain ⟨h1, h2⟩ := qlog2_spec (n:ℚ) hq
  have hub : (n : ℚ) ≤ 2 ^ (24:ℤ) := by
    have h' : ((n:ℕ) : ℚ) ≤ ((2^24 : ℕ) : ℚ) := by exact_mod_cast hn
    calc (n : ℚ) ≤ ((2^24 : ℕ) : ℚ) := h'
      _ = 2 ^ (24:ℤ) := by norm_num
  have hL24 : qlog2 (n:ℚ) ≤ 24 := by
    by_contra h
    have h25 : (2:ℚ) ^ (25:ℤ) ≤ 2 ^ qlog2 (n:ℚ) := zpow_le_zpow_right₀ (by norm_num) (by omega)
    have h24 : (2:ℚ) ^ (24:ℤ) < 2 ^ (25:ℤ) := by norm_num
    linarith
  rcases lt_or_eq_of_le hL24 with hL23 | hL24eq
  · -- qlog2 ≤ 23 : the scaled value n * 2^(23-L) is an integer
    set t : ℕ := (23 - qlog2 (n:ℚ)).toNat with ht
    have htz : (t : ℤ) = 23 - qlog2 (n:ℚ) := Int.toNat_of_nonneg (by omega)
    refine rne_of_exact (n:ℚ) hq ((n : ℤ) * 2 ^ t) ?_
    have hpow : (2:ℚ) ^ (t:ℤ) * 2 ^ (qlog2 (n:ℚ) - 23) = 1 := by
      rw [← zpow_add₀ (by norm_num : (2:ℚ) ≠ 0), htz,
        (by ring : (23 - qlog2 (n:ℚ)) + (qlog2 (n:ℚ) - 23) = 0), zpow_zero]
    rw [eq_div_iff (by positivity : (2:ℚ) ^ (qlog2 (n:ℚ) - 23) ≠ 0)]
    push_cast
    rw [← zpow_natCast (2:ℚ) t, mul_assoc, hpow, mul_one]
  · -- qlog2 = 24 : then n = 2^24 and the scaled value is 2^23
    have heq : (n : ℚ) = 2 ^ (24:ℤ) := by
      rw [hL24eq] at h1
      exact le_antisymm hub h1
    refine rne_of_exact (n:ℚ) hq (2 ^ 23) ?_
    rw [hL24eq, heq, (by norm_num : (24:ℤ) - 23 = 1)]
    norm_num

lemma rne_one : rne 1 = 1 := by
  have := rne_natCast 1 (by norm_num)
  simpa using this

lemma rne_mono (x y : ℚ) (hxy : x ≤ y) : rne x ≤ rne y := by
  rcases le_or_lt x 0 with hx0 | hx0
  · rw [rne, if_pos hx0]; exact rne_nonneg y
  have hy0 : 0 < y := lt_of_lt_of_le hx0 hxy
  rw [rne, if_neg (not_le.mpr hx0), rne, if_neg (not_le.mpr hy0)]
  have hLmono := qlog2_mono x y hx0 hxy
  rcases lt_or_eq_of_le hLmono with hLlt | hLeq
  · -- strictly larger exponent: chain through powers of two
    obtain ⟨_, hmxu⟩ := mantissa_bounds x hx0
    obtain ⟨hmyl, _⟩ := mantissa_bounds y hy0
    have hceil : rHalf (x / 2 ^ (qlog2 x - 23)) ≤ 2 ^ 24 := by
      refine le_trans (rHalf_le_ceil _) (Int.ceil_le.mpr ?_)
      have h24 : ((2 ^ 24 : ℤ) : ℚ) = 2 ^ (24:ℤ) := by norm_num
      rw [h24]
      exact le_of_lt hmxu
    have hfloor : (2:ℤ) ^ 23 ≤ ⌊y / 2 ^ (qlog2 y - 23)⌋ := by
      refine Int.le_floor.mpr ?_
      have h23 : ((2 ^ 23 : ℤ) : ℚ) = 2 ^ (23:ℤ) := by norm_num
      rw [h23]
      exact hmyl
    calc (rHalf (x / 2 ^ (qlog2 x - 23)) : ℚ) * 2 ^ (qlog2 x - 23)
        ≤ (2:ℚ) ^ (24:ℤ) * 2 ^ (qlog2 x - 23) := by
          refine mul_le_mul_of_nonneg_right ?_ (by positivity)
          have h24 : ((2 ^ 24 : ℤ) : ℚ) = 2 ^ (24:ℤ) := by norm_num
          calc (rHalf (x / 2 ^ (qlog2 x - 23)) : ℚ) ≤ ((2 ^ 24 : ℤ) : ℚ) := by
                exact_mod_cast hceil
            _ = 2 ^ (24:ℤ) := h24
      _ = (2:ℚ) ^ (qlog2 x + 1) := by
          rw [← zpow_add₀ (by norm_num : (2:ℚ) ≠ 0)]
          congr 1
          ring
      _ ≤ (2:ℚ) ^ (qlog2 y) := zpow_le_zpow_right₀ (by norm_num) (by omega)
      _ = (2:ℚ) ^ (23:ℤ) * 2 ^ (qlog2 y - 23) := by
          rw [← zpow_add₀ (by norm_num : (2:ℚ) ≠ 0)]
          congr 1
          ring
      _ ≤ (rHalf (y / 2 ^ (qlog2 y - 23)) : ℚ) * 2 ^ (qlog2 y - 23) := by
          refine mul_le_mul_of_nonneg_right ?_ (by positivity)
          have h23 : ((2 ^ 23 : ℤ) : ℚ) = 2 ^ (23:ℤ) := by norm_num
          calc (2:ℚ) ^ (23:ℤ) = ((2 ^ 23 : ℤ) : ℚ) := h23.symm
            _ ≤ (rHalf (y / 2 ^ (qlog2 y - 23)) : ℚ) := by
                exact_mod_cast le_trans hfloor (floor_le_rHalf _)
  · -- same exponent: mantissas are ordered, rHalf is monotone
    rw [hLeq]
    have hm : x / 2 ^ (qlog2 y - 23) ≤ y / 2 ^ (qlog2 y - 23) := by gcongr
    have hr : (rHalf (x / 2 ^ (qlog2 y - 23)) : ℚ) ≤ (rHalf (y / 2 ^ (qlog2 y - 23)) : ℚ) := by
      exact_mod_cast rHalf_mono _ _ hm
    exact mul_le_mul_of_nonneg_right hr (by positivity)

lemma rne_le_natCast (q : ℚ) (n : ℕ) (h : q ≤ n) (hn : n ≤ 2 ^ 24) : rne q ≤ n :=
  le_of_le_of_eq (rne_mono q n h) (rne_natCast n hn)

lemma rHalf_le_add_half (m : ℚ) : (rHalf m : ℚ) ≤ m + 1/2 := by
  have hfl : (⌊m⌋ : ℚ) ≤ m := Int.floor_le m
  rw [rHalf]
  split_ifs with h1 h2 h3
  · linarith
  · push_cast
    linarith
  · linarith
  · have heq : m - (⌊m⌋ : ℚ) = 1/2 := le_antisymm (not_lt.mp h2) (not_lt.mp h1)
    push_cast
    linarith

/-- Relative rounding error of `f32`: rounding never adds more than one
part in `2^24`. -/
lemma rne_le_rel (q : ℚ) (hq : 0 ≤ q) : rne q ≤ q + q / 16777216 := by
  rcases eq_or_lt_of_le hq with h0 | hpos
  · rw [← h0, rne_zero]
    norm_num
  · obtain ⟨hm1, _⟩ := mantissa_bounds q hpos
    rw [rne, if_neg (not_le.mpr hpos)]
    have hepos : (0:ℚ) < 2 ^ (qlog2 q - 23) := by positivity
    have h2 : (q / 2 ^ (qlog2 q - 23) + 1/2) * 2 ^ (qlog2 q - 23)
        = q + 2 ^ (qlog2 q - 23) / 2 := by
      rw [add_mul, div_mul_cancel₀ q (ne_of_gt hepos)]
      ring
    have h4 : (2:ℚ) ^ (23:ℤ) * 2 ^ (qlog2 q - 23) ≤ q := by
      rw [← le_div_iff₀ hepos]
      exact hm1
    have h6 : (2:ℚ) ^ (qlog2 q - 23) / 2 = 2 ^ (qlog2 q - 24) := by
      rw [div_eq_mul_inv, (by ring : qlog2 q - 24 = (qlog2 q - 23) + (-1)),
        zpow_add₀ (by norm_num : (2:ℚ) ≠ 0), zpow_neg_one]
    have h7 : (2:ℚ) ^ (qlog2 q - 24) = (2 ^ (23:ℤ) * 2 ^ (qlog2 q - 23)) / 2 ^ (24:ℤ) := by
      rw [← zpow_add₀ (by norm_num : (2:ℚ) ≠ 0),
        eq_div_iff (by positivity : (2:ℚ) ^ (24:ℤ) ≠ 0),
        ← zpow_add₀ (by norm_num : (2:ℚ) ≠ 0)]
      congr 1
      ring
    have h8 : (2 ^ (23:ℤ) * 2 ^ (qlog2 q - 23) : ℚ) / 2 ^ (24:ℤ) ≤ q / 2 ^ (24:ℤ) := by
      gcongr
    have h9 : (q:ℚ) / 2 ^ (24:ℤ) = q / 16777216 := by norm_num
    calc (rHalf (q / 2 ^ (qlog2 q - 23)) : ℚ) * 2 ^ (qlog2 q - 23)
        ≤ (q / 2 ^ (qlog2 q - 23) + 1/2) * 2 ^ (qlog2 q - 23) :=
          mul_le_mul_of_nonneg_right (rHalf_le_add_half _) (le_of_lt hepos)
      _ = q + 2 ^ (qlog2 q - 23) / 2 := h2
      _ = q + 2 ^ (qlog2 q - 24) := by rw [h6]
      _ = q + (2 ^ (23:ℤ) * 2 ^ (qlog2 q - 23)) / 2 ^ (24:ℤ) := by rw [← h7]
      _ ≤ q + q / 2 ^ (24:ℤ) := by linarith [h8]
      _ = q + q / 16777216 := by rw [h9]

/-- `rne` is idempotent: rounded values are representable and round to
themselves. -/
lemma rne_idem (q : ℚ) : rne (rne q) = rne q := by
  rcases le_or_lt q 0 with hq | hq
  · have h0 : rne q = 0 := by rw [rne, if_pos hq]
    rw [h0, rne_zero]
  · obtain ⟨hm1, hm2⟩ := mantissa_bounds q hq
    have hr : rne q = (rHalf (q / 2 ^ (qlog2 q - 23)) : ℚ) * 2 ^ (qlog2 q - 23) := by
      rw [rne, if_neg (not_le.mpr hq)]
    have hK1 : (2:ℤ) ^ 23 ≤ rHalf (q / 2 ^ (qlog2 q - 23)) := by
      refine le_trans (Int.le_floor.mpr ?_) (floor_le_rHalf _)
      calc ((2 ^ 23 : ℤ) : ℚ) = 2 ^ (23:ℤ) := by norm_num
        _ ≤ q / 2 ^ (qlog2 q - 23) := hm1
    have hK2 : rHalf (q / 2 ^ (qlog2 q - 23)) ≤ 2 ^ 24 := by
      refine le_trans (rHalf_le_floor_add_one _) ?_
      have hfl : ⌊q / 2 ^ (qlog2 q - 23)⌋ < (2:ℤ) ^ 24 := by
        rw [Int.floor_lt]
        calc q / 2 ^ (qlog2 q - 23) < 2 ^ (24:ℤ) := hm2
          _ = ((2 ^ 24 : ℤ) : ℚ) := by norm_num
      omega
    have hKpos : (0:ℚ) < (rHalf (q / 2 ^ (qlog2 q - 23)) : ℚ) := by
      have hp : (0:ℤ) < rHalf (q / 2 ^ (qlog2 q - 23)) := by
        have h23 : (0:ℤ) < 2 ^ 23 := by norm_num
        omega
      exact_mod_cast hp
    have hrpos : 0 < rne q := by
      rw [hr]
      exact mul_pos hKpos (by positivity)
    rcases lt_or_eq_of_le hK2 with hKlt | hKeq
    · have hlog : qlog2 (rne q) = qlog2 q := by
        refine qlog2_eq _ _ hrpos ?_ ?_
        · rw [hr]
          calc (2:ℚ) ^ qlog2 q = 2 ^ (23:ℤ) * 2 ^ (qlog2 q - 23) := by
                rw [← zpow_add₀ (by norm_num : (2:ℚ) ≠ 0)]
                congr 1
                ring
            _ ≤ (rHalf (q / 2 ^ (qlog2 q - 23)) : ℚ) * 2 ^ (qlog2 q - 23) := by
                refine mul_le_mul_of_nonneg_right ?_ (by positivity)
                calc (2:ℚ) ^ (23:ℤ) = ((2 ^ 23 : ℤ) : ℚ) := by norm_num
                  _ ≤ (rHalf (q / 2 ^ (qlog2 q - 23)) : ℚ) := by exact_mod_cast hK1
        · rw [hr]
          calc (rHalf (q / 2 ^ (qlog2 q - 23)) : ℚ) * 2 ^ (qlog2 q - 23)
              < 2 ^ (24:ℤ) * 2 ^ (qlog2 q - 23) := by
                refine mul_lt_mul_of_pos_right ?_ (by positivity)
                calc (rHalf (q / 2 ^ (qlog2 q - 23)) : ℚ) < ((2 ^ 24 : ℤ) : ℚ) := by
                      exact_mod_cast hKlt
                  _ = 2 ^ (24:ℤ) := by norm_num
            _ = 2 ^ (qlog2 q + 1) := by
                rw [← zpow_add₀ (by norm_num : (2:ℚ) ≠ 0)]
                congr 1
                ring
      refine rne_of_exact _ hrpos (rHalf (q / 2 ^ (qlog2 q - 23))) ?_
      rw [hlog, hr, mul_div_assoc,
        div_self (by positivity : (2:ℚ) ^ (qlog2 q - 23) ≠ 0), mul_one]
    · have hrq : rne q = 2 ^ (qlog2 q + 1) := by
        rw [hr, hKeq]
        calc ((2 ^ 24 : ℤ) : ℚ) * 2 ^ (qlog2 q - 23)
            = 2 ^ (24:ℤ) * 2 ^ (qlog2 q - 23) := by norm_num
          _ = 2 ^ (qlog2 q + 1) := by
              rw [← zpow_add₀ (by norm_num : (2:ℚ) ≠ 0)]
              congr 1
              ring
      have hlog : qlog2 (rne q) = qlog2 q + 1 := by
        refine qlog2_eq _ _ hrpos (by rw [hrq]) ?_
        rw [hrq]
        exact zpow_lt_zpow_right₀ (by norm_num) (by omega)
      refine rne_of_exact _ hrpos (2 ^ 23) ?_
      rw [hlog, hrq, eq_div_iff (by positivity : (2:ℚ) ^ (qlog2 q + 1 - 23) ≠ 0)]
      calc ((2 ^ 23 : ℤ) : ℚ) * 2 ^ (qlog2 q + 1 - 23)
          = 2 ^ (23:ℤ) * 2 ^ (qlog2 q + 1 - 23) := by norm_num
        _ = 2 ^ (qlog2 q + 1) := by
            rw [← zpow_add₀ (by norm_num : (2:ℚ) ≠ 0)]
            congr 1
            ring

/-! ### Embedding of the program -/

/-- Decoded pixel grid: dimensions plus a luminance sample per pixel
(the value of `img.get_pixel(x, y).to_luma().0[0]`). -/
structure Grid where
  width : ℕ
  height : ℕ
  lum : ℕ → ℕ → ℕ

/-- Per-run configuration after the CLI fallback resolution of
lines 63-68 (per-axis thresholds, percentiles and extra margins) together
with the blur and downscale options. -/
structure Config where
  xThreshold : ℕ
  yThreshold : ℕ
  xPercentile : ℕ
  yPercentile : ℕ
  xExtra : ℕ
  yExtra : ℕ
  blur : Option ℚ
  downscale : ℚ

/-- Images as terms: the decoded source image and the crop / blur / resize
operations applied to it by lines 126-136. -/
inductive Img where
  | source : Img
  | crop (w h : ℕ) (i : Img) : Img
  | blur (sigma : ℚ) (i : Img) : Img
  | resize (w h : ℕ) (i : Img) : Img
deriving DecidableEq

/-- The two panics the modelled code can hit: the explicit
`panic!("Failed to detect sides of image")` of line 103, and the
`.get(i).unwrap()` of lines 111-112. -/
inductive Failure where
  | detection : Failure
  | selection : Failure
deriving DecidableEq

/-- Result of processing one image: the crop edges, the resize target
dimensions, and the image term that gets saved. -/
structure Output where
  xEdge : ℕ
  yEdge : ℕ
  newWidth : ℕ
  newHeight : ℕ
  result : Img
deriving DecidableEq

/-- Lines 83-88: scan row `y` from column `width-1` down to `0`, returning
the first column whose luminance is below the threshold. -/
def rowOffsetX (g : Grid) (t y : ℕ) : Option ℕ :=
  (List.range g.width).reverse.find? (fun x => g.lum x y < t)

/-- Lines 82-89: one entry per row that has a below-threshold pixel;
rows without one contribute nothing. -/
def xThresholds (g : Grid) (t : ℕ) : List ℕ :=
  (List.range g.height).filterMap (rowOffsetX g t)

/-- Lines 93-98: scan column `x` from row `height-1` down to `0`. -/
def colOffsetY (g : Grid) (t x : ℕ) : Option ℕ :=
  (List.range g.height).reverse.find? (fun y => g.lum x y < t)

/-- Lines 92-99. -/
def yThresholds (g : Grid) (t : ℕ) : List ℕ :=
  (List.range g.width).filterMap (colOffsetY g t)

/-- Line 65: `1.0 - percentile as f32 / 100.0`, in `f32` arithmetic. -/
def fracF32 (p : ℕ) : ℚ := rne (1 - rne ((p : ℚ) / 100))

/-- Lines 109-110: `(fraction * (len - 1) as f32).floor() as usize`, in
`f32` arithmetic, as a function of the fraction value. -/
def idxOfFrac (f : ℚ) (n : ℕ) : ℕ :=
  (⌊rne (f * rne ((n - 1 : ℕ) : ℚ))⌋).toNat

/-- The selection index used for percentile `p` on a sequence of length `n`. -/
def percIndex (p n : ℕ) : ℕ := idxOfFrac (fracF32 p) n

/-- `u32` subtraction as compiled in release mode: two's-complement
wrap-around (`a - b` for operands below `2^32`). -/
def wrapSub (a b : ℕ) : ℕ := (a % 2^32 + (2^32 - b % 2^32)) % 2^32

/-- Lines 107-112 for one axis, parametrised by the percentile fraction:
sort ascending, index at the computed position, subtract the extra margin
(`u32` subtraction followed by the no-op `.max(0)`).  `none` models the
`unwrap` panic when the index is out of range. -/
def edgeAtFrac (offs : List ℕ) (f : ℚ) (extra : ℕ) : Option ℕ :=
  ((offs.insertionSort (· ≤ ·)).get? (idxOfFrac f offs.length)).map
    (fun raw => max (wrapSub raw extra) 0)

/-- Lines 107-112 for one axis with percentile `p`. -/
def selectEdge (offs : List ℕ) (p extra : ℕ) : Option ℕ :=
  edgeAtFrac offs (fracF32 p) extra

/-- Lines 115-123: the pre-floor output dimensions `new_x`, `new_y`.
The `f32` values are modelled as exact rationals; note that the code
applies `.floor()` to `f_height` itself, not to the product. -/
def newDims (W H xe ye : ℕ) : ℚ × ℚ :=
  let fW : ℚ := (W : ℚ)
  let fH : ℚ := (H : ℚ)
  let xRel : ℚ := (xe : ℚ) / fW
  let yRel : ℚ := (ye : ℚ) / fH
  if xRel < yRel then ((xe : ℚ), xRel * (⌊fH⌋ : ℚ)) else (yRel * fW, (ye : ℚ))

/-- Lines 115-123 and 132-135: pre-floor dimensions followed by
`(new / downscale).floor() as u32` on both axes (the `as u32` cast turns
a negative value into `0`, matching `Int.toNat`). -/
def aspectResize (W H xe ye : ℕ) (d : ℚ) : ℕ × ℕ :=
  ((⌊(newDims W H xe ye).1 / d⌋).toNat, (⌊(newDims W H xe ye).2 / d⌋).toNat)

/-- Lines 115-123 in the bit-faithful `f32` model: every conversion,
division and multiplication is rounded by `rne` exactly where the code
rounds (`f_height.floor()` is the exact `f32` floor of the rounded
height, itself representable, so it carries no further rounding). -/
def newDimsF32 (W H xe ye : ℕ) : ℚ × ℚ :=
  let fW : ℚ := rne (W : ℚ)
  let fH : ℚ := rne (H : ℚ)
  let xRel : ℚ := rne (rne (xe : ℚ) / fW)
  let yRel : ℚ := rne (rne (ye : ℚ) / fH)
  if xRel < yRel then (rne (xe : ℚ), rne (xRel * (⌊fH⌋ : ℚ)))
  else (rne (yRel * fW), rne (ye : ℚ))

/-- Lines 132-135 in the bit-faithful `f32` model: rounded division by the
downscale factor, exact `f32` floor, and the saturating `as u32` cast
(negative to `0`, above `u32::MAX` to `2^32 - 1`). -/
def aspectResizeF32 (W H xe ye : ℕ) (d : ℚ) : ℕ × ℕ :=
  (min (⌊rne ((newDimsF32 W H xe ye).1 / d)⌋).toNat (2 ^ 32 - 1),
   min (⌊rne ((newDimsF32 W H xe ye).2 / d)⌋).toNat (2 ^ 32 - 1))

/-- The whole per-image computation, lines 78-136. -/
def pipeline (g : Grid) (cfg : Config) : Except Failure Output :=
  let xs := xThresholds g cfg.xThreshold
  let ys := yThresholds g cfg.yThreshold
  if xs.isEmpty || ys.isEmpty then .error .detection
  else
    match selectEdge xs cfg.xPercentile cfg.xExtra,
        selectEdge ys cfg.yPercentile cfg.yExtra with
    | some xe, some ye =>
      let nd := aspectResize g.width g.height xe ye cfg.downscale
      let cropped := Img.crop xe ye Img.source
      let blurred := match cfg.blur with
        | some s => Img.blur s cropped
        | none => cropped
      .ok ⟨xe, ye, nd.1, nd.2, Img.resize nd.1 nd.2 blurred⟩
    | _, _ => .error .selection

/-! ### Bounds on the selection index -/

lemma fracF32_nonneg (p : ℕ) : 0 ≤ fracF32 p := rne_nonneg _

lemma fracF32_le_one (p : ℕ) : fracF32 p ≤ 1 := by
  have h := rne_nonneg ((p:ℚ) / 100)
  have harg : (1:ℚ) - rne ((p:ℚ) / 100) ≤ ((1:ℕ):ℚ) := by push_cast; linarith
  have h2 := rne_le_natCast _ 1 harg (by norm_num)
  simpa [fracF32] using h2

lemma idxOfFrac_le (f : ℚ) (n : ℕ) (hf1 : f ≤ 1) (hn : n ≤ 2 ^ 24) :
    idxOfFrac f n ≤ n - 1 := by
  have hsub : n - 1 ≤ 2 ^ 24 := by omega
  have hr : rne ((n - 1 : ℕ) : ℚ) = ((n - 1 : ℕ) : ℚ) := rne_natCast (n - 1) hsub
  have hprod : f * rne ((n - 1 : ℕ) : ℚ) ≤ ((n - 1 : ℕ) : ℚ) := by
    rw [hr]
    calc f * ((n - 1 : ℕ) : ℚ) ≤ 1 * ((n - 1 : ℕ) : ℚ) :=
          mul_le_mul_of_nonneg_right hf1 (by positivity)
      _ = ((n - 1 : ℕ) : ℚ) := one_mul _
  have h2 : rne (f * rne ((n - 1 : ℕ) : ℚ)) ≤ ((n - 1 : ℕ) : ℚ) :=
    rne_le_natCast _ _ hprod hsub
  have h3 : ⌊rne (f * rne ((n - 1 : ℕ) : ℚ))⌋ ≤ ((n - 1 : ℕ) : ℤ) := by
    have h4 := Int.floor_mono h2
    simpa using h4
  rw [idxOfFrac]
  omega

lemma percIndex_le (p n : ℕ) (hn : n ≤ 2 ^ 24) : percIndex p n ≤ n - 1 :=
  idxOfFrac_le _ n (fracF32_le_one p) hn

lemma selectEdge_isSome (offs : List ℕ) (p extra : ℕ) (hne : offs ≠ [])
    (hlen : offs.length ≤ 2 ^ 24) : (selectEdge offs p extra).isSome = true := by
  rw [selectEdge, edgeAtFrac]
  have hlen2 : idxOfFrac (fracF32 p) offs.length <
      (offs.insertionSort (· ≤ ·)).length := by
    rw [List.length_insertionSort]
    have h1 : idxOfFrac (fracF32 p) offs.length ≤ offs.length - 1 :=
      idxOfFrac_le _ _ (fracF32_le_one p) hlen
    have h2 : offs.length ≠ 0 := fun h => hne (List.length_eq_zero.mp h)
    omega
  rw [List.get?_eq_get hlen2]
  rfl

/-! ### Characterisation of the reverse range scan -/

lemma find?_range_reverse_eq_some (W x : ℕ) (p : ℕ → Bool) :
    (List.range W).reverse.find? p = some x ↔
      (x < W ∧ p x = true ∧ ∀ x', x < x' → x' < W → p x' = false) := by
  induction W with
  | zero => simp
  | succ W ih =>
    rw [List.range_succ, List.reverse_append, List.reverse_singleton,
      List.singleton_append]
    by_cases hW : p W = true
    · rw [List.find?_cons_of_pos _ hW]
      constructor
      · intro h
        have hx : W = x := by injection h
        subst hx
        exact ⟨Nat.lt_succ_self W, hW, fun x' h1 h2 => by omega⟩
      · rintro ⟨h1, h2, h3⟩
        have hxW : x = W := by
          by_contra hne
          have hxlt : x < W := by omega
          have hfalse := h3 W hxlt (Nat.lt_succ_self W)
          rw [hW] at hfalse
          exact Bool.true_eq_false.mp hfalse
        subst hxW
        rfl
    · have hWf : p W = false := by
        rwa [Bool.not_eq_true] at hW
      rw [List.find?_cons_of_neg _ hW, ih]
      constructor
      · rintro ⟨h1, h2, h3⟩
        refine ⟨by omega, h2, fun x' ha hb => ?_⟩
        rcases Nat.lt_or_ge x' W with hc | hc
        · exact h3 x' ha hc
        · have hx' : x' = W := by omega
          subst hx'
          exact hWf
      · rintro ⟨h1, h2, h3⟩
        have hxW : x ≠ W := by
          rintro rfl
          rw [h2] at hWf
          exact Bool.true_eq_false.mp hWf
        exact ⟨by omega, h2, fun x' ha hb => h3 x' ha (by omega)⟩

lemma find?_range_reverse_eq_none (W : ℕ) (p : ℕ → Bool) :
    (List.range W).reverse.find? p = none ↔ ∀ x, x < W → p x = false := by
  rw [List.find?_eq_none]
  constructor
  · intro h x hx
    have hmem : x ∈ (List.range W).reverse := by
      rw [List.mem_reverse, List.mem_range]
      exact hx
    have h2 := h x hmem
    rwa [Bool.not_eq_true] at h2
  · intro h x hmem
    rw [List.mem_reverse, List.mem_range] at hmem
    rw [Bool.not_eq_true]
    exact h x hmem

/-! ### filterMap helpers -/

lemma filterMap_const_some {β : Type} (f : ℕ → Option β) (c : β) (l : List ℕ)
    (h : ∀ a ∈ l, f a = some c) : l.filterMap f = List.replicate l.length c := by
  induction l with
  | nil => rfl
  | cons a l ih =>
    rw [List.filterMap_cons_some (h a (List.mem_cons_self a l)), List.length_cons,
      List.replicate_succ, ih (fun b hb => h b (List.mem_cons_of_mem a hb))]

lemma filterMap_range_prefix {β : Type} (f : ℕ → Option β) (c : β) (h : ℕ) :
    ∀ H, h ≤ H → (∀ y, y < h → f y = some c) →
      (∀ y, h ≤ y → y < H → f y = none) →
      (List.range H).filterMap f = List.replicate h c := by
  intro H
  induction H with
  | zero =>
    intro h0 _ _
    have hh : h = 0 := by omega
    subst hh
    rfl
  | succ H ih =>
    intro hle hsome hnone
    rcases Nat.lt_or_ge H h with hcase | hcase
    · have hh : h = H + 1 := by omega
      subst hh
      rw [List.range_succ, List.filterMap_append,
        filterMap_const_some f c (List.range H) (fun a ha => hsome a (by
          rw [List.mem_range] at ha
          omega)),
        List.length_range,
        List.filterMap_cons_some (hsome H (by omega)), List.filterMap_nil]
      rw [List.replicate_succ']
    · rw [List.range_succ, List.filterMap_append,
        ih hcase hsome (fun y hy1 hy2 => hnone y hy1 (by omega)),
        List.filterMap_cons_none (hnone H hcase (by omega)), List.filterMap_nil,
        List.append_nil]

/-! ### Concrete inputs used to settle the claims -/

/-- A 1 x 1 all-dark grid (luminance 0 everywhere). -/
def gridDark1 : Grid := ⟨1, 1, fun _ _ => 0⟩

/-- A 2 x 2 all-dark grid. -/
def gridDark2 : Grid := ⟨2, 2, fun _ _ => 0⟩

/-- A 2 x 3 grid: dark rectangle `[0,1) x [0,2)` on a light background. -/
def gridRect : Grid := ⟨2, 3, fun x y => if x < 1 ∧ y < 2 then 0 else 255⟩

/-- A 1-pixel-wide, 16777220-pixel-tall all-dark grid. -/
def gridTall : Grid := ⟨1, 16777220, fun _ _ => 0⟩

/-- Default CLI configuration (threshold 250, percentile 95) with an
extra margin of 1 on both axes. -/
def cfgExtra1 : Config := ⟨250, 250, 95, 95, 1, 1, none, 1⟩

/-- Default thresholds/percentile, no extra margin, downscale factor 4. -/
def cfgDown4 : Config := ⟨250, 250, 95, 95, 0, 0, none, 4⟩

/-- Percentile 0 on both axes (fraction 1 after line 65), no margin. -/
def cfgP0 : Config := ⟨250, 250, 0, 0, 0, 0, none, 1⟩

/-! ### Concrete `f32` evaluations -/

lemma rne_eval_frame (q : ℚ) (L : ℤ) (hq : 0 < q)
    (h1 : 2 ^ L ≤ q) (h2 : q < 2 ^ (L + 1)) :
    rne q = (rHalf (q / 2 ^ (L - 23)) : ℚ) * 2 ^ (L - 23) := by
  rw [rne, if_neg (not_le.mpr hq), qlog2_eq q L hq h1 h2]

lemma fracF32_zero : fracF32 0 = 1 := by
  rw [fracF32]
  rw [(by norm_num : (((0:ℕ)):ℚ) / 100 = 0), rne_zero, sub_zero, rne_one]

lemma rne_16777219 : rne (16777219:ℚ) = 16777220 := by
  rw [rne_eval_frame (16777219:ℚ) 24 (by norm_num) (by norm_num) (by norm_num)]
  rw [(by norm_num : (16777219:ℚ) / 2 ^ ((24:ℤ) - 23) = 16777219 / 2)]
  rw [rHalf, (by norm_num : ⌊(16777219:ℚ) / 2⌋ = 8388609)]
  rw [if_neg (by norm_num), if_neg (by norm_num), if_neg (by decide)]
  norm_num

lemma rne_16777220 : rne (16777220:ℚ) = 16777220 := by
  have hlog : qlog2 (16777220:ℚ) = 24 :=
    qlog2_eq _ 24 (by norm_num) (by norm_num) (by norm_num)
  refine rne_of_exact _ (by norm_num) 8388610 ?_
  rw [hlog]
  norm_num

lemma percIndex_0_16777220 : percIndex 0 16777220 = 16777220 := by
  rw [percIndex, idxOfFrac, fracF32_zero, one_mul]
  rw [(by norm_num : ((16777220 - 1 : ℕ) : ℚ) = 16777219), rne_16777219, rne_16777220]
  norm_num
  rfl

lemma rne_95_100 : rne ((95:ℚ) / 100) = 15938355 / 16777216 := by
  rw [rne_eval_frame ((95:ℚ) / 100) (-1) (by norm_num) (by norm_num) (by norm_num)]
  rw [(by norm_num : ((95:ℚ) / 100) / 2 ^ ((-1:ℤ) - 23) = 79691776 / 5)]
  rw [rHalf, (by norm_num : ⌊(79691776:ℚ) / 5⌋ = 15938355)]
  rw [if_pos (by norm_num)]
  norm_num

lemma rne_frac95 : rne ((838861:ℚ) / 16777216) = 838861 / 16777216 := by
  have hlog : qlog2 ((838861:ℚ) / 16777216) = -5 :=
    qlog2_eq _ (-5) (by norm_num) (by norm_num) (by norm_num)
  refine rne_of_exact _ (by norm_num) 13421776 ?_
  rw [hlog]
  norm_num

lemma fracF32_95 : fracF32 95 = 838861 / 16777216 := by
  rw [fracF32]
  rw [(by norm_num : (((95:ℕ)):ℚ) / 100 = (95:ℚ) / 100), rne_95_100]
  rw [(by norm_num : (1:ℚ) - 15938355 / 16777216 = 838861 / 16777216)]
  exact rne_frac95

lemma percIndex_95_1 : percIndex 95 1 = 0 := by
  rw [percIndex, idxOfFrac]
  rw [(by norm_num : ((1 - 1 : ℕ) : ℚ) = 0), rne_zero, mul_zero, rne_zero]
  norm_num

lemma percIndex_95_2 : percIndex 95 2 = 0 := by
  rw [percIndex, idxOfFrac]
  rw [(by norm_num : ((2 - 1 : ℕ) : ℚ) = 1), rne_one, mul_one, fracF32_95, rne_frac95]
  norm_num

lemma idxOfFrac_0_2 : idxOfFrac 0 2 = 0 := by
  rw [idxOfFrac, zero_mul, rne_zero]
  norm_num

lemma idxOfFrac_1_2 : idxOfFrac 1 2 = 1 := by
  rw [idxOfFrac]
  rw [(by norm_num : ((2 - 1 : ℕ) : ℚ) = 1), rne_one, one_mul, rne_one]
  norm_num

/-! ### Pipeline evaluation helpers -/

lemma pipeline_isOk_of_nonempty (g : Grid) (cfg : Config)
    (hx : xThresholds g cfg.xThreshold ≠ []) (hy : yThresholds g cfg.yThreshold ≠ [])
    (hxl : (xThresholds g cfg.xThreshold).length ≤ 2 ^ 24)
    (hyl : (yThresholds g cfg.yThreshold).length ≤ 2 ^ 24) :
    (pipeline g cfg).isOk = true := by
  obtain ⟨xe, hxe⟩ := Option.isSome_iff_exists.mp
    (selectEdge_isSome _ cfg.xPercentile cfg.xExtra hx hxl)
  obtain ⟨ye, hye⟩ := Option.isSome_iff_exists.mp
    (selectEdge_isSome _ cfg.yPercentile cfg.yExtra hy hyl)
  simp only [pipeline]
  rw [if_neg (by simp [List.isEmpty_eq_true, hx, hy]), hxe, hye]
  rfl

lemma pipeline_eq_ok (g : Grid) (cfg : Config) (xe ye : ℕ)
    (hne : ((xThresholds g cfg.xThreshold).isEmpty
      || (yThresholds g cfg.yThreshold).isEmpty) = false)
    (hsx : selectEdge (xThresholds g cfg.xThreshold) cfg.xPercentile cfg.xExtra = some xe)
    (hsy : selectEdge (yThresholds g cfg.yThreshold) cfg.yPercentile cfg.yExtra = some ye) :
    pipeline g cfg = .ok ⟨xe, ye,
      (aspectResize g.width g.height xe ye cfg.downscale).1,
      (aspectResize g.width g.height xe ye cfg.downscale).2,
      Img.resize (aspectResize g.width g.height xe ye cfg.downscale).1
        (aspectResize g.width g.height xe ye cfg.downscale).2
        (match cfg.blur with
          | some s => Img.blur s (Img.crop xe ye Img.source)
          | none => Img.crop xe ye Img.source)⟩ := by
  simp only [pipeline]
  rw [if_neg (by rw [hne]; simp), hsx, hsy]

lemma pipeline_eq_selection_of_none (g : Grid) (cfg : Config)
    (hne : ((xThresholds g cfg.xThreshold).isEmpty
      || (yThresholds g cfg.yThreshold).isEmpty) = false)
    (hsx : selectEdge (xThresholds g cfg.xThreshold) cfg.xPercentile cfg.xExtra = none) :
    pipeline g cfg = .error .selection := by
  simp only [pipeline]
  rw [if_neg (by rw [hne]; exact Bool.false_ne_true), hsx]

lemma selectEdge_11 : selectEdge [1, 1] 95 0 = some 1 := by
  rw [selectEdge, edgeAtFrac]
  have hidx : idxOfFrac (fracF32 95) (([1, 1] : List ℕ).length) = 0 := percIndex_95_2
  rw [hidx]
  rfl

lemma selectEdge_0_extra1 : selectEdge [0] 95 1 = some 4294967295 := by
  rw [selectEdge, edgeAtFrac]
  have hidx : idxOfFrac (fracF32 95) (([0] : List ℕ).length) = 0 := percIndex_95_1
  rw [hidx]
  rfl

lemma aspectResize_2_2 : aspectResize 2 2 1 1 4 = (0, 0) := by
  simp only [aspectResize, newDims]
  rw [if_neg (by norm_num)]
  norm_num

lemma aspectResize_1_1_big :
    aspectResize 1 1 4294967295 4294967295 1 = (4294967295, 4294967295) := by
  simp only [aspectResize, newDims]
  rw [if_neg (by norm_num)]
  norm_num
  rfl

lemma edgeAtFrac_05_f0 : edgeAtFrac [0, 5] 0 3 = some 4294967293 := by
  rw [edgeAtFrac]
  have hidx : idxOfFrac 0 (([0, 5] : List ℕ).length) = 0 := idxOfFrac_0_2
  rw [hidx]
  rfl

lemma edgeAtFrac_05_f1 : edgeAtFrac [0, 5] 1 3 = some 2 := by
  rw [edgeAtFrac]
  have hidx : idxOfFrac 1 (([0, 5] : List ℕ).length) = 1 := idxOfFrac_1_2
  rw [hidx]
  rfl

lemma xThresholds_gridTall : xThresholds gridTall 250 = List.replicate 16777220 0 := by
  rw [xThresholds]
  rw [filterMap_const_some (rowOffsetX gridTall 250) 0 (List.range gridTall.height)
    (fun y _ => rfl), List.length_range]
  rfl

lemma yThresholds_gridTall : yThresholds gridTall 250 = [16777219] := by
  rw [yThresholds]
  have h0 : colOffsetY gridTall 250 0 = some 16777219 := by
    rw [colOffsetY]
    show (List.range 16777220).reverse.find? _ = some 16777219
    rw [(by norm_num : (16777220 : ℕ) = 16777219 + 1), List.range_succ,
      List.reverse_append, List.reverse_singleton, List.singleton_append,
      List.find?_cons_of_pos _ (by rfl)]
  rw [(by rfl : List.range gridTall.width = [0]),
    List.filterMap_cons_some h0, List.filterMap_nil]

/-! ### Claims -/

/-- Claim C1 (code_bug): the spec demands the selected crop edge be
`max(raw_edge - extra_margin, 0)` with saturating subtraction, so `0`
whenever the margin exceeds the raw edge.  The code instead performs plain
`u32` subtraction (wrap-around in release builds, a panic in debug builds)
followed by a no-op `.max(0)`: for the offset sequence `[0]` with
`extra = 1` it selects `2^32 - 1`, not the `0` the spec requires. -/
theorem C1_eval :
    selectEdge [0] 95 1 = some 4294967295 ∧
    max (0 - 1 : ℕ) 0 = 0 ∧ (4294967295 : ℕ) ≠ 0 :=
  ⟨selectEdge_0_extra1, rfl, by norm_num⟩

/-- Claim C2 (counterexample): on an all-dark 2 x 2 image with downscale
factor 4, both computed target dimensions are `0`, yet the pipeline
succeeds and hands `0 x 0` to `resize_exact` — there is no
`InvalidDimensionsError` check anywhere. -/
theorem C2_counterexample :
    pipeline gridDark2 cfgDown4 =
      .ok ⟨1, 1, 0, 0, Img.resize 0 0 (Img.crop 1 1 Img.source)⟩ := by
  have hsx : selectEdge (xThresholds gridDark2 cfgDown4.xThreshold) cfgDown4.xPercentile
      cfgDown4.xExtra = some 1 := by
    rw [(by decide : xThresholds gridDark2 cfgDown4.xThreshold = [1, 1])]
    exact selectEdge_11
  have hsy : selectEdge (yThresholds gridDark2 cfgDown4.yThreshold) cfgDown4.yPercentile
      cfgDown4.yExtra = some 1 := by
    rw [(by decide : yThresholds gridDark2 cfgDown4.yThreshold = [1, 1])]
    exact selectEdge_11
  rw [pipeline_eq_ok gridDark2 cfgDown4 1 1 (by decide) hsx hsy]
  rw [(show aspectResize gridDark2.width gridDark2.height 1 1 cfgDown4.downscale = (0, 0)
    from aspectResize_2_2)]
  rfl

/-- Claim C2 (amended): the code performs no dimension check at all —
whenever edge detection and boundary selection succeed, the pipeline
returns a result and proceeds to resize, even when a computed target
dimension is zero. -/
theorem C2_amended (g : Grid) (cfg : Config)
    (hx : xThresholds g cfg.xThreshold ≠ []) (hy : yThresholds g cfg.yThreshold ≠ [])
    (hxl : (xThresholds g cfg.xThreshold).length ≤ 2 ^ 24)
    (hyl : (yThresholds g cfg.yThreshold).length ≤ 2 ^ 24) :
    (pipeline g cfg).isOk = true :=
  pipeline_isOk_of_nonempty g cfg hx hy hxl hyl

/-- Claim C2 (witness): the amended theorem applied to the all-dark
2 x 2 grid with downscale 4 — the very input on which both target
dimensions are zero. -/
theorem C2_witness : (pipeline gridDark2 cfgDown4).isOk = true :=
  C2_amended gridDark2 cfgDown4 (by decide) (by decide) (by decide) (by decide)

/-- Claim C6 (code_bug): with the fixed sorted offset sequence `[0, 5]`
and `extra_margin = 3`, raising the percentile fraction from `0` to `1`
drops the selected edge from `2^32 - 3` (wrapped subtraction `0 - 3`) to
`2`, violating the claimed monotonicity.  Under the spec's intended
saturating subtraction the sequence would be monotone. -/
theorem C6_eval :
    edgeAtFrac [0, 5] 0 3 = some 4294967293 ∧
    edgeAtFrac [0, 5] 1 3 = some 2 ∧
    (0 : ℚ) ≤ 1 ∧ ¬ (4294967293 : ℕ) ≤ 2 :=
  ⟨edgeAtFrac_05_f0, edgeAtFrac_05_f1, by norm_num, by norm_num⟩

/-- Claim C8 (code_bug): on a 1 x 1 all-dark image with `extra = 1` the
selected raw offset is `0`; the wrapped subtraction makes both crop edges
`2^32 - 1`, far exceeding the original dimensions, so the invariant
`x_edge ≤ width` fails on the code (the spec's saturating subtraction
would keep it). -/
theorem C8_eval :
    pipeline gridDark1 cfgExtra1 =
      .ok ⟨4294967295, 4294967295, 4294967295, 4294967295,
        Img.resize 4294967295 4294967295
          (Img.crop 4294967295 4294967295 Img.source)⟩ ∧
    gridDark1.width = 1 ∧ gridDark1.height = 1 ∧ (1 : ℕ) < 4294967295 := by
  refine ⟨?_, rfl, rfl, by norm_num⟩
  have hsx : selectEdge (xThresholds gridDark1 cfgExtra1.xThreshold) cfgExtra1.xPercentile
      cfgExtra1.xExtra = some 4294967295 := by
    rw [(by decide : xThresholds gridDark1 cfgExtra1.xThreshold = [0])]
    exact selectEdge_0_extra1
  have hsy : selectEdge (yThresholds gridDark1 cfgExtra1.yThreshold) cfgExtra1.yPercentile
      cfgExtra1.yExtra = some 4294967295 := by
    rw [(by decide : yThresholds gridDark1 cfgExtra1.yThreshold = [0])]
    exact selectEdge_0_extra1
  rw [pipeline_eq_ok gridDark1 cfgExtra1 _ _ (by decide) hsx hsy]
  rw [(show aspectResize gridDark1.width gridDark1.height 4294967295 4294967295
      cfgExtra1.downscale = (4294967295, 4294967295) from aspectResize_1_1_big)]
  rfl

/-- Claim C10 (counterexample): for a sequence of length `16777220`
(&gt; 2^24) and percentile `0`, the `f32` computation rounds
`16777219` up to `16777220`, so the index equals the length: it lies
outside `[0, n-1]` and the subsequent `.get(i).unwrap()` panics. -/
theorem C10_counterexample :
    16777220 - 1 < percIndex 0 16777220 ∧
    (List.replicate 16777220 (0 : ℕ)).get? (percIndex 0 16777220) = none := by
  constructor
  · rw [percIndex_0_16777220]
    norm_num
  · rw [percIndex_0_16777220, List.get?_eq_none, List.length_replicate]

/-- Claim C10 (amended): for sequences of length at most `2^24` the
selection index stays within `[0, n-1]` for every percentile in
`[0, 100]`, and the lookup into the sorted sequence always succeeds. -/
theorem C10_amended (n p : ℕ) (hn1 : 1 ≤ n) (hn : n ≤ 2 ^ 24) :
    percIndex p n ≤ n - 1 ∧
    ∀ l : List ℕ, l.length = n → (l.get? (percIndex p n)).isSome = true := by
  refine ⟨percIndex_le p n hn, fun l hl => ?_⟩
  have hlt : percIndex p n < l.length := by
    have h1 := percIndex_le p n hn
    omega
  rw [List.get?_eq_get hlt]
  rfl

/-- Claim C10 (witness): the amended bound at length 5, percentile 95. -/
theorem C10_witness :
    percIndex 95 5 ≤ 5 - 1 ∧
    (([3, 1, 4, 1, 5] : List ℕ).get? (percIndex 95 5)).isSome = true := by
  obtain ⟨h1, h2⟩ := C10_amended 5 95 (by norm_num) (by norm_num)
  exact ⟨h1, h2 [3, 1, 4, 1, 5] rfl⟩

/-- Claim C3 (counterexample): with original dimensions 19 x 10, crop
edges (1, 10) and downscale 1, the computed target dimensions are (1, 0):
the output height collapses to zero, so the output ratio differs from
`W/H = 19/10` by the full 19/10 — far beyond floating-point rounding
tolerance (the target is not even a valid image). -/
theorem C3_counterexample :
    aspectResize 19 10 1 10 1 = (1, 0) ∧
    |((aspectResize 19 10 1 10 1).1 : ℚ) / ((aspectResize 19 10 1 10 1).2 : ℚ) - 19 / 10|
      = 19 / 10 := by
  have h : aspectResize 19 10 1 10 1 = (1, 0) := by
    simp only [aspectResize, newDims]
    rw [if_pos (by norm_num)]
    norm_num
  refine ⟨h, ?_⟩
  rw [h]
  norm_num

lemma newDims_ratio (W H xe ye : ℕ) (hW : 0 < W) (hH : 0 < H) :
    (newDims W H xe ye).1 * (H : ℚ) = (newDims W H xe ye).2 * (W : ℚ) := by
  have hWQ : (0:ℚ) < (W:ℚ) := by exact_mod_cast hW
  have hHQ : (0:ℚ) < (H:ℚ) := by exact_mod_cast hH
  simp only [newDims]
  split_ifs with hrel <;> dsimp only
  · rw [Int.floor_natCast]
    push_cast
    field_simp
  · field_simp

/-- Claim C3 (amended): over the bit-faithful `f32` model of
lines 115-123 and 133-134 (`aspectResizeF32`: round-to-nearest-even at
every conversion, division and multiplication, saturating `u32` cast),
with `downscale = 1`, original dimensions positive and at most `2^24`,
and crop edges at most `2^22`, the target dimensions satisfy
`nw ≤ x_edge` and `nh ≤ y_edge`; and in the exact-arithmetic
idealization `newDims` of the same lines (rounding dropped) the
PRE-floor dimensions preserve the original ratio exactly,
`new_x * H = new_y * W`.  The bounds genuinely need the size
restriction: in the program `x_edge = 16777219` already converts to
`16777220.0f32`, exceeding `x_edge`; and the integer ratio after
flooring can deviate arbitrarily, down to a zero dimension, as the
counterexample shows. -/
theorem C3_amended (W H xe ye : ℕ) (hW : 0 < W) (hH : 0 < H)
    (hW24 : W ≤ 2 ^ 24) (hH24 : H ≤ 2 ^ 24) (hxe : xe ≤ 2 ^ 22) (hye : ye ≤ 2 ^ 22) :
    (aspectResizeF32 W H xe ye 1).1 ≤ xe ∧ (aspectResizeF32 W H xe ye 1).2 ≤ ye ∧
    (newDims W H xe ye).1 * (H : ℚ) = (newDims W H xe ye).2 * (W : ℚ) := by
  have hWQ : (0:ℚ) < (W:ℚ) := by exact_mod_cast hW
  have hHQ : (0:ℚ) < (H:ℚ) := by exact_mod_cast hH
  have hxeQ : (xe:ℚ) ≤ 4194304 := by
    have h1 : ((xe:ℕ):ℚ) ≤ ((2 ^ 22 : ℕ):ℚ) := by exact_mod_cast hxe
    calc (xe:ℚ) ≤ ((2 ^ 22 : ℕ):ℚ) := h1
      _ = 4194304 := by norm_num
  have hyeQ : (ye:ℚ) ≤ 4194304 := by
    have h1 : ((ye:ℕ):ℚ) ≤ ((2 ^ 22 : ℕ):ℚ) := by exact_mod_cast hye
    calc (ye:ℚ) ≤ ((2 ^ 22 : ℕ):ℚ) := h1
      _ = 4194304 := by norm_num
  have hrW : rne ((W:ℕ):ℚ) = ((W:ℕ):ℚ) := rne_natCast W hW24
  have hrH : rne ((H:ℕ):ℚ) = ((H:ℕ):ℚ) := rne_natCast H hH24
  have hrxe : rne ((xe:ℕ):ℚ) = ((xe:ℕ):ℚ) := rne_natCast xe (by omega)
  have hrye : rne ((ye:ℕ):ℚ) = ((ye:ℕ):ℚ) := rne_natCast ye (by omega)
  simp only [aspectResizeF32, newDimsF32, div_one, hrW, hrH, hrxe, hrye,
    Int.floor_natCast, Int.cast_natCast]
  split_ifs with hrel <;> dsimp only <;>
    simp only [rne_idem, hrxe, hrye, Int.floor_natCast, Int.toNat_natCast]
  · refine ⟨?_, ?_, newDims_ratio W H xe ye hW hH⟩
    · omega
    · have hxR0 : 0 ≤ rne ((xe:ℚ) / (W:ℚ)) := rne_nonneg _
      have hyRle : rne ((ye:ℚ) / (H:ℚ)) ≤ (ye:ℚ) / (H:ℚ) + ((ye:ℚ) / (H:ℚ)) / 16777216 :=
        rne_le_rel _ (by positivity)
      have hv : rne ((xe:ℚ) / (W:ℚ)) * (H:ℚ) < (ye:ℚ) + (ye:ℚ) / 16777216 := by
        have h1 : rne ((xe:ℚ) / (W:ℚ)) * (H:ℚ) < rne ((ye:ℚ) / (H:ℚ)) * (H:ℚ) :=
          mul_lt_mul_of_pos_right hrel hHQ
        have h2 : rne ((ye:ℚ) / (H:ℚ)) * (H:ℚ)
            ≤ ((ye:ℚ) / (H:ℚ) + ((ye:ℚ) / (H:ℚ)) / 16777216) * (H:ℚ) :=
          mul_le_mul_of_nonneg_right hyRle (le_of_lt hHQ)
        have h3 : ((ye:ℚ) / (H:ℚ) + ((ye:ℚ) / (H:ℚ)) / 16777216) * (H:ℚ)
            = (ye:ℚ) + (ye:ℚ) / 16777216 := by
          field_simp
          ring
        linarith
      have hv0 : 0 ≤ rne ((xe:ℚ) / (W:ℚ)) * (H:ℚ) := mul_nonneg hxR0 (le_of_lt hHQ)
      have hrv := rne_le_rel _ hv0
      have hlt : rne (rne ((xe:ℚ) / (W:ℚ)) * (H:ℚ)) < (ye:ℚ) + 1 := by
        linarith
      have hfl : ⌊rne (rne ((xe:ℚ) / (W:ℚ)) * (H:ℚ))⌋ < ((ye:ℕ):ℤ) + 1 := by
        rw [Int.floor_lt]
        push_cast
        exact hlt
      omega
  · refine ⟨?_, ?_, newDims_ratio W H xe ye hW hH⟩
    · have hle : rne ((ye:ℚ) / (H:ℚ)) ≤ rne ((xe:ℚ) / (W:ℚ)) := not_lt.mp hrel
      have hxRle : rne ((xe:ℚ) / (W:ℚ)) ≤ (xe:ℚ) / (W:ℚ) + ((xe:ℚ) / (W:ℚ)) / 16777216 :=
        rne_le_rel _ (by positivity)
      have hv : rne ((ye:ℚ) / (H:ℚ)) * (W:ℚ) ≤ (xe:ℚ) + (xe:ℚ) / 16777216 := by
        have h1 : rne ((ye:ℚ) / (H:ℚ)) * (W:ℚ) ≤ rne ((xe:ℚ) / (W:ℚ)) * (W:ℚ) :=
          mul_le_mul_of_nonneg_right hle (le_of_lt hWQ)
        have h2 : rne ((xe:ℚ) / (W:ℚ)) * (W:ℚ)
            ≤ ((xe:ℚ) / (W:ℚ) + ((xe:ℚ) / (W:ℚ)) / 16777216) * (W:ℚ) :=
          mul_le_mul_of_nonneg_right hxRle (le_of_lt hWQ)
        have h3 : ((xe:ℚ) / (W:ℚ) + ((xe:ℚ) / (W:ℚ)) / 16777216) * (W:ℚ)
            = (xe:ℚ) + (xe:ℚ) / 16777216 := by
          field_simp
          ring
        linarith
      have hv0 : 0 ≤ rne ((ye:ℚ) / (H:ℚ)) * (W:ℚ) :=
        mul_nonneg (rne_nonneg _) (le_of_lt hWQ)
      have hrv := rne_le_rel _ hv0
      have hlt : rne (rne ((ye:ℚ) / (H:ℚ)) * (W:ℚ)) < (xe:ℚ) + 1 := by
        linarith
      have hfl : ⌊rne (rne ((ye:ℚ) / (H:ℚ)) * (W:ℚ))⌋ < ((xe:ℕ):ℤ) + 1 := by
        rw [Int.floor_lt]
        push_cast
        exact hlt
      omega
    · omega

/-- Claim C3 (witness): the amended statement at W=1000, H=500,
crop edges (300, 400). -/
theorem C3_witness :
    (aspectResizeF32 1000 500 300 400 1).1 ≤ 300 ∧
    (aspectResizeF32 1000 500 300 400 1).2 ≤ 400 ∧
    (newDims 1000 500 300 400).1 * ((500:ℕ) : ℚ)
      = (newDims 1000 500 300 400).2 * ((1000:ℕ) : ℚ) :=
  C3_amended 1000 500 300 400 (by norm_num) (by norm_num) (by norm_num) (by norm_num)
    (by norm_num) (by norm_num)

/-- Claim C4: the formula the claim states, with an intermediate `floor`
applied to the computed dimension before dividing by the downscale
factor. -/
def aspectResizeClaimC4 (W H xe ye : ℕ) (d : ℚ) : ℕ × ℕ :=
  let relX : ℚ := (xe : ℚ) / (W : ℚ)
  let relY : ℚ := (ye : ℚ) / (H : ℚ)
  let nw : ℤ := if relX < relY then (xe : ℤ) else ⌊relY * (W : ℚ)⌋
  let nh : ℤ := if relX < relY then ⌊relX * (H : ℚ)⌋ else (ye : ℤ)
  ((⌊(nw : ℚ) / d⌋).toNat, (⌊(nh : ℚ) / d⌋).toNat)

/-- Claim C4 (amended wording): no intermediate flooring happens — the
code floors `f_height` itself (a no-op on a whole number) and otherwise
floors only once, after dividing by the downscale factor. -/
def aspectResizeAmended (W H xe ye : ℕ) (d : ℚ) : ℕ × ℕ :=
  let relX : ℚ := (xe : ℚ) / (W : ℚ)
  let relY : ℚ := (ye : ℚ) / (H : ℚ)
  let nw : ℚ := if relX < relY then (xe : ℚ) else relY * (W : ℚ)
  let nh : ℚ := if relX < relY then relX * (H : ℚ) else (ye : ℚ)
  ((⌊nw / d⌋).toNat, (⌊nh / d⌋).toNat)

/-- Claim C4 (counterexample): at W=4, H=10, edges (3, 10) and
downscale 5/2 the code computes height `floor(7.5 / 2.5) = 3`, while the
claim's formula (`floor(7.5)` first, then divide) gives
`floor(7 / 2.5) = 2`. -/
theorem C4_counterexample :
    aspectResize 4 10 3 10 (5/2) = (1, 3) ∧
    aspectResizeClaimC4 4 10 3 10 (5/2) = (1, 2) ∧
    aspectResize 4 10 3 10 (5/2) ≠ aspectResizeClaimC4 4 10 3 10 (5/2) := by
  have h1 : aspectResize 4 10 3 10 (5/2) = (1, 3) := by
    simp only [aspectResize, newDims]
    rw [if_pos (by norm_num)]
    norm_num
    rfl
  have h2 : aspectResizeClaimC4 4 10 3 10 (5/2) = (1, 2) := by
    simp only [aspectResizeClaimC4]
    rw [if_pos (by norm_num), if_pos (by norm_num)]
    norm_num
    rfl
  refine ⟨h1, h2, ?_⟩
  rw [h1, h2]
  simp

/-- Claim C4 (amended): the branch structure is as claimed, but with the
floors placed as the code places them: `new_height = rel_x * height`
(the code's floor applies to `height` itself, a no-op) respectively
`new_width = rel_y * width`, and a single final floor after dividing by
the downscale factor. -/
theorem C4_amended (W H xe ye : ℕ) (d : ℚ) :
    aspectResize W H xe ye d = aspectResizeAmended W H xe ye d := by
  simp only [aspectResize, aspectResizeAmended, newDims, Int.floor_natCast,
    Int.cast_natCast]
  split_ifs <;> rfl

/-- Claim C5 (confirmed): the x-axis scanner records, per row, exactly the
largest below-threshold column (scanning from `width-1` down), omits rows
with none, and symmetrically for the y-axis; on a grid that is light
except for a dark rectangle `[0,w) x [0,h)` at the origin, the x-offsets
are `w-1` for rows `0..h` and absent for rows `h..height`, and the
y-offsets are `h-1` for columns `0..w`. -/
theorem C5_scanner (g : Grid) (t : ℕ) :
    (∀ y x, rowOffsetX g t y = some x ↔
      (x < g.width ∧ g.lum x y < t ∧ ∀ x', x < x' → x' < g.width → ¬ g.lum x' y < t)) ∧
    (∀ y, rowOffsetX g t y = none ↔ ∀ x, x < g.width → ¬ g.lum x y < t) ∧
    (∀ x y, colOffsetY g t x = some y ↔
      (y < g.height ∧ g.lum x y < t ∧ ∀ y', y < y' → y' < g.height → ¬ g.lum x y' < t)) ∧
    (∀ x, colOffsetY g t x = none ↔ ∀ y, y < g.height → ¬ g.lum x y < t) ∧
    (∀ w h, 0 < w → w ≤ g.width → 0 < h → h ≤ g.height →
      (∀ x, x < g.width → ∀ y, y < g.height → (g.lum x y < t ↔ (x < w ∧ y < h))) →
      xThresholds g t = List.replicate h (w - 1) ∧
      yThresholds g t = List.replicate w (h - 1)) := by
  refine ⟨?_, ?_, ?_, ?_, ?_⟩
  · intro y x
    rw [rowOffsetX, find?_range_reverse_eq_some]
    simp only [decide_eq_true_eq, decide_eq_false_iff_not]
  · intro y
    rw [rowOffsetX, find?_range_reverse_eq_none]
    simp only [decide_eq_false_iff_not]
  · intro x y
    rw [colOffsetY, find?_range_reverse_eq_some]
    simp only [decide_eq_true_eq, decide_eq_false_iff_not]
  · intro x
    rw [colOffsetY, find?_range_reverse_eq_none]
    simp only [decide_eq_false_iff_not]
  · intro w h hw hwle hh hhle hlum
    constructor
    · rw [xThresholds]
      refine filterMap_range_prefix _ (w - 1) h g.height hhle ?_ ?_
      · intro y hy
        rw [rowOffsetX]
        refine (find?_range_reverse_eq_some g.width (w - 1) _).mpr ⟨by omega, ?_, ?_⟩
        · simp only [decide_eq_true_eq]
          exact (hlum (w - 1) (by omega) y (by omega)).mpr ⟨by omega, hy⟩
        · intro x' h1 h2
          simp only [decide_eq_false_iff_not]
          intro hcon
          exact absurd ((hlum x' h2 y (by omega)).mp hcon) (by omega)
      · intro y hy1 hy2
        rw [rowOffsetX, find?_range_reverse_eq_none]
        intro x hx
        simp only [decide_eq_false_iff_not]
        intro hcon
        exact absurd ((hlum x hx y hy2).mp hcon) (by omega)
    · rw [yThresholds]
      refine filterMap_range_prefix _ (h - 1) w g.width hwle ?_ ?_
      · intro x hx
        rw [colOffsetY]
        refine (find?_range_reverse_eq_some g.height (h - 1) _).mpr ⟨by omega, ?_, ?_⟩
        · simp only [decide_eq_true_eq]
          exact (hlum x (by omega) (h - 1) (by omega)).mpr ⟨hx, by omega⟩
        · intro y' h1 h2
          simp only [decide_eq_false_iff_not]
          intro hcon
          exact absurd ((hlum x (by omega) y' h2).mp hcon) (by omega)
      · intro x hx1 hx2
        rw [colOffsetY, find?_range_reverse_eq_none]
        intro y hy
        simp only [decide_eq_false_iff_not]
        intro hcon
        exact absurd ((hlum x hx2 y hy).mp hcon) (by omega)

/-- Claim C5 (witness): the rectangle conjunct instantiated on a 2 x 3
grid whose dark rectangle is `[0,1) x [0,2)`, threshold 250. -/
theorem C5_witness :
    xThresholds gridRect 250 = List.replicate 2 0 ∧
    yThresholds gridRect 250 = List.replicate 1 1 :=
  (C5_scanner gridRect 250).2.2.2.2 1 2 (by norm_num) (by decide) (by norm_num)
    (by decide) (by decide)

/-- Claim C7 (counterexample): on a 1 x 16777220 all-dark image with
percentile 0, both offset sequences are non-empty, yet the boundary
selection step panics on the out-of-range index (the `unwrap` of
line 111) — so \"both sequences non-empty\" does not imply the selection
step succeeds. -/
theorem C7_counterexample :
    pipeline gridTall cfgP0 = .error .selection ∧
    xThresholds gridTall cfgP0.xThreshold ≠ [] ∧
    yThresholds gridTall cfgP0.yThreshold ≠ [] := by
  have hxs : xThresholds gridTall cfgP0.xThreshold = List.replicate 16777220 0 :=
    xThresholds_gridTall
  have hys : yThresholds gridTall cfgP0.yThreshold = [16777219] :=
    yThresholds_gridTall
  have hsel : selectEdge (List.replicate 16777220 (0:ℕ)) 0 0 = none := by
    rw [selectEdge, edgeAtFrac]
    have hidx : idxOfFrac (fracF32 0) ((List.replicate 16777220 (0:ℕ)).length)
        = 16777220 := by
      rw [List.length_replicate]
      exact percIndex_0_16777220
    rw [hidx]
    have hlen : ((List.replicate 16777220 (0:ℕ)).insertionSort (· ≤ ·)).length
        = 16777220 := by
      rw [List.length_insertionSort, List.length_replicate]
    have hnone : ((List.replicate 16777220 (0:ℕ)).insertionSort (· ≤ ·)).get? 16777220
        = none := by
      rw [List.get?_eq_none, hlen]
    rw [hnone]
    rfl
  have hxcons : List.replicate 16777220 (0:ℕ) = 0 :: List.replicate 16777219 0 := by
    rw [(by norm_num : (16777220:ℕ) = 16777219 + 1), List.replicate_succ]
  have hcond : ((xThresholds gridTall cfgP0.xThreshold).isEmpty
      || (yThresholds gridTall cfgP0.yThreshold).isEmpty) = false := by
    rw [hxs, hys, hxcons]
    rfl
  have hsel' : selectEdge (List.replicate 16777220 (0:ℕ)) cfgP0.xPercentile
      cfgP0.xExtra = none := hsel
  refine ⟨?_, ?_, ?_⟩
  · refine pipeline_eq_selection_of_none gridTall cfgP0 hcond ?_
    rw [hxs]
    exact hsel'
  · rw [hxs, hxcons]
    exact List.cons_ne_nil 0 _
  · rw [hys]
    exact List.cons_ne_nil 16777219 []

/-- Claim C7 (amended): processing fails with the detection panic exactly
when one of the two offset sequences is empty; and when both are
non-empty AND of length at most `2^24`, the boundary-selection step (and
everything after it) succeeds.  Without the length bound the selection
can panic on the out-of-range index, as the counterexample shows. -/
theorem C7_amended (g : Grid) (cfg : Config) :
    (pipeline g cfg = .error .detection ↔
      (xThresholds g cfg.xThreshold = [] ∨ yThresholds g cfg.yThreshold = [])) ∧
    (xThresholds g cfg.xThreshold ≠ [] → yThresholds g cfg.yThreshold ≠ [] →
      (xThresholds g cfg.xThreshold).length ≤ 2 ^ 24 →
      (yThresholds g cfg.yThreshold).length ≤ 2 ^ 24 →
      (pipeline g cfg).isOk = true) := by
  constructor
  · constructor
    · intro h
      by_contra hcon
      push_neg at hcon
      obtain ⟨hx, hy⟩ := hcon
      simp only [pipeline] at h
      rw [if_neg (by simp [List.isEmpty_eq_true, hx, hy])] at h
      split at h <;>
        first
          | exact Except.noConfusion h
          | exact Except.noConfusion h (fun heq => Failure.noConfusion heq)
    · intro h
      simp only [pipeline]
      rw [if_pos (by rcases h with h1 | h1 <;> simp [h1])]
  · exact fun hx hy hxl hyl => pipeline_isOk_of_nonempty g cfg hx hy hxl hyl

/-- Claim C7 (witness): on the 1 x 1 all-dark grid with percentile 0 the
sequences are non-empty and short, so the pipeline succeeds. -/
theorem C7_witness : (pipeline gridDark1 cfgP0).isOk = true :=
  (C7_amended gridDark1 cfgP0).2 (by decide) (by decide) (by decide) (by decide)

/-- Claim C9 (confirmed): the blur option has no effect on the computed
crop edges or target dimensions — the pipeline outputs agree on those
four fields for any blur setting versus none (the blur only wraps the
pixel data between crop and resize). -/
theorem C9_frame (g : Grid) (cfg : Config) (b : Option ℚ) :
    Except.map (fun r => (r.xEdge, r.yEdge, r.newWidth, r.newHeight))
        (pipeline g { cfg with blur := b }) =
      Except.map (fun r => (r.xEdge, r.yEdge, r.newWidth, r.newHeight))
        (pipeline g { cfg with blur := none }) := by
  obtain ⟨xt, yt, xp, yp, xex, yex, bl, d⟩ := cfg
  simp only [pipeline]
  split_ifs with h
  · rfl
  · cases selectEdge (xThresholds g xt) xp xex with
    | none => rfl
    | some xe =>
      cases selectEdge (yThresholds g yt) yp yex with
      | none => rfl
      | some ye => cases b <;> rfl

end Cpar
